import Mathlib

/-
Verification of the concept-tagging training harness (src/run_model.py) and
the encoder-decoder model (src/models/encoder.py) via a shallow embedding.

Conventions of the embedding:
* machine floats become ℚ (no claim here depends on floating-point rounding);
* tensors become nested lists, batch-major exactly as the torch shapes;
* the numeric kernels supplied by torch (GRU cells, BatchNorm2d, the linear
  output layer, LogSoftmax, dropout realizations, pretrained embedding rows)
  are fields of the model structure: the repository's code never looks inside
  them, it only wires them together, and the wiring is what is embedded;
* fallible Python code (constructor calls, asserts, ill-arity calls) becomes
  Except String.
-/

/-- One dataset example: a sequence of token indices and the equal-length
sequence of gold label indices. -/
structure Example where
  tokens : List ℤ
  labels : List ℤ
deriving DecidableEq, Repr, Inhabited

/-- Length of the longest token sequence in a batch. -/
def maxLen (batch : List Example) : ℕ :=
  batch.foldr (fun e acc => max e.tokens.length acc) 0

/-- Pad a list on the right with copies of x up to length T (no truncation). -/
def padTo (x : ℤ) (T : ℕ) (l : List ℤ) : List ℤ :=
  l ++ List.replicate (T - l.length) x

/-- The label tensor assembled for a batch: every label row padded with -1
(the ignore marker) to the batch's maximum sequence length. -/
def padded_labels (batch : List Example) : List (List ℤ) :=
  batch.map (fun e => padTo (-1) (maxLen batch) e.labels)

/-- Modelled from the spec: `data_manager.batch_sequence` is not under src/
(only its caller `EncoderDecoderRNN.forward` is).  Spec 4.1 (Batch
Assembler): token rows are padded with the reserved padding index to the
batch's maximum length, label rows are padded with -1, and the per-example
original lengths are returned alongside. -/
def batch_sequence (padIdx : ℤ) (batch : List Example) :
    List (List ℤ) × List (List ℤ) × List ℕ :=
  (batch.map (fun e => padTo padIdx (maxLen batch) e.tokens),
   padded_labels batch,
   batch.map (fun e => e.tokens.length))

/-
Regrouping of the flattened prediction / gold streams.
run_model.py lines 170-184 (train_model) and 100-114 (evaluate_model) run the
same scan: walk the zipped (prediction, gold) stream; while gold is not -1
push both values onto the pending pair; on gold = -1 flush the pending pair
into the per-example lists and start a fresh pair.  Whatever is pending when
the stream ends is dropped (the Python loop simply finishes).
-/

/-- The scan over the zipped flattened stream, carrying the pending
prediction and gold accumulators, exactly as the Python loop body. -/
def regroupAux : List (ℤ × ℤ) → List ℤ → List ℤ → List (List ℤ) × List (List ℤ)
  | [], _, _ => ([], [])
  | (ival, labelval) :: rest, tmp_pred, tmp_true =>
    if labelval ≠ -1 then
      regroupAux rest (tmp_pred ++ [ival]) (tmp_true ++ [labelval])
    else
      let r := regroupAux rest [] []
      (tmp_pred :: r.1, tmp_true :: r.2)

/-- Regroup flattened predictions and flattened gold labels by splitting on
encountered -1 gold labels (run_model.py 170-184 and 100-114). -/
def regroup (indices labels : List ℤ) : List (List ℤ) × List (List ℤ) :=
  regroupAux (indices.zip labels) [] []

/-- The flattened gold-label stream of a batch, as `forward` returns it
(labels.view(-1) on the padded label tensor). -/
def flat_labels (batch : List Example) : List ℤ :=
  (padded_labels batch).flatten

/-
write_predictions (run_model.py 56-72).  The embedding returns the full file
content; each string in `write_predictions_writes` is one file.write call.
-/

/-- Inversion of the class vocabulary: index_to_class built on line 66.  A
missing key would raise KeyError in Python; the claims only exercise present
keys, modelled by the default. -/
def index_to_class (class_vocab : List (String × ℤ)) (i : ℤ) : String :=
  ((class_vocab.map (fun p => (p.2, p.1))).lookup i).getD ""

/-- One output line, Python's "%s %s %s\n" % (word, conc, predicted). -/
def format_line (word conc predicted : String) : String :=
  word ++ " " ++ conc ++ " " ++ predicted ++ "\n"

/-- The inner for-loop of write_predictions: one line per zipped token
triple (zip stops at the shortest sequence, as in Python). -/
def write_example_lines (i2c : ℤ → String) (indexed_labels : Bool) :
    List String → List ℤ → List ℤ → List String
  | word :: ws, concept :: cs, predicted :: ps =>
    format_line word (if indexed_labels then i2c concept else toString concept)
        (i2c predicted)
      :: write_example_lines i2c indexed_labels ws cs ps
  | _, _, _ => []

/-- The outer for-loop of write_predictions: per zipped example, its token
lines followed by the blank-line write. -/
def write_predictions_writes (i2c : ℤ → String) (indexed_labels : Bool) :
    List (List String) → List (List ℤ) → List (List ℤ) → List String
  | t :: ts, l :: ls, p :: ps =>
    write_example_lines i2c indexed_labels t l p ++ ["\n"]
      ++ write_predictions_writes i2c indexed_labels ts ls ps
  | _, _, _ => []

/-- Content written by write_predictions (run_model.py 56-72): the
concatenation of all file.write calls. -/
def write_predictions (tokens : List (List String)) (labels predictions : List (List ℤ))
    (indexed_labels : Bool) (class_vocab : List (String × ℤ)) : String :=
  String.join
    (write_predictions_writes (index_to_class class_vocab) indexed_labels
      tokens labels predictions)

/-- Reference rendering of one example block, phrased after the spec's
words: one line per token of the form "token gold predicted", then a blank
line after the example. -/
def prediction_block_spec (i2c : ℤ → String) (indexed_labels : Bool)
    (t : List String) (l p : List ℤ) : String :=
  String.join ((t.zip (l.zip p)).map (fun w =>
    format_line w.1 (if indexed_labels then i2c w.2.1 else toString w.2.1)
      (i2c w.2.2))) ++ "\n"

/-
parse_args (run_model.py 243-339), after getopt extraction and numeric
conversion: the chain of asserts in source order, then the result record.
-/

def possible_models : List String :=
  ["recurrent", "rnn", "gru", "lstm2ch", "encoder", "attention", "conv",
   "init_hidden", "lstmcrf"]

def possible_sequences : List String := ["tokens"]

def possible_datasets : List String := ["movies", "atis", "vui"]

/-- The parameter dictionary parse_args returns. -/
structure ParamsRes where
  lr : ℚ
  drop : ℚ
  decay : ℚ
  embedding_norm : ℚ
  batch : ℤ
  epochs : ℤ
  hidden_size : ℤ
  model : String
  dataset : String
  sequence : String
deriving DecidableEq, Repr

/-- parse_args after numeric conversion of the option strings: each assert
of run_model.py 284-312 in source order; a failed assert is the error with
the assert's message. -/
def parse_args (lr drop decay embedding_norm : ℚ) (batch epochs hidden_size : ℤ)
    (sequence model dataset : String) : Except String ParamsRes :=
  if ¬ (0 < lr) then Except.error "learning rate should be greater than 0" else
  if ¬ (0 ≤ drop) then Except.error "dropout rate should be greater or equal to 0" else
  if ¬ (0 ≤ decay) then Except.error "decay should be greater or equal to 0" else
  if ¬ (0 ≤ embedding_norm) then Except.error "embedding_norm should be greater or equal to 0" else
  if ¬ (0 < batch) then Except.error "batch size should be greater than 0" else
  if ¬ (0 < epochs) then Except.error "epochs size should be greater than 0" else
  if ¬ (0 < hidden_size) then Except.error "hidden size should be greater than 0" else
  if ¬ (sequence ∈ possible_sequences) then Except.error "sequence to use should be among the possible sequences" else
  if ¬ (model ∈ possible_models) then Except.error "use a model from the possible models" else
  if ¬ (dataset ∈ possible_datasets) then Except.error "use a dataset from the possible datasets" else
  Except.ok ⟨lr, drop, decay, embedding_norm, batch, epochs, hidden_size,
    model, dataset, sequence⟩

/-
The train-stats block of train_model (run_model.py 198-203).  For a non-CRF
model it executes
    write_predictions(y_true, y_true, y_predicted, "../output/train_pred.txt")
passing 4 positional arguments, while write_predictions declares 6
parameters, none with a default; Python raises TypeError at the call.
-/

/-- Number of parameters of write_predictions (run_model.py 56), all
without defaults. -/
def write_predictions_required_args : ℕ := 6

/-- Python positional call semantics: fewer arguments than required
parameters raises TypeError. -/
def py_call_write_predictions (nargs : ℕ) : Except String Unit :=
  if nargs < write_predictions_required_args then
    Except.error "TypeError: write_predictions missing required positional arguments"
  else Except.ok ()

/-- The per-epoch train-stats reporting block (run_model.py 198-203),
reached for every non-CRF model after the batch loop of the epoch. -/
def train_stats_block (isCrf : Bool) : Except String Unit :=
  if isCrf then Except.ok ()
  else do
    _ ← py_call_write_predictions 4
    Except.ok ()

/-- One epoch of train_model (run_model.py 152-209): the batch loop records
one loss per batch (forward pass, nll loss, backward, optimizer step and
gradient zeroing folded into lossOf, which may depend on the mutable model
state via the epoch and batch indices), then the scheduler steps on the mean
loss, then the train-stats block runs. -/
def train_epoch (lossOf : ℕ → ℚ) (nbatches : ℕ) (isCrf : Bool) :
    Except String (List ℚ) := do
  let errors := (List.range nbatches).map lossOf
  _ ← train_stats_block isCrf
  Except.ok errors

/-- The epoch loop of train_model, starting at a given epoch index with a
given number of epochs still to run; each epoch must complete for the next
to start, and an uncaught exception aborts the run. -/
def train_model_from (nbatches : ℕ) (lossOf : ℕ → ℕ → ℚ) (isCrf : Bool) :
    ℕ → ℕ → Except String Unit
  | _, 0 => Except.ok ()
  | epoch, n + 1 => do
    _ ← train_epoch (lossOf epoch) nbatches isCrf
    train_model_from nbatches lossOf isCrf (epoch + 1) n

/-- train_model (run_model.py 129-212): for epoch in range(epochs). -/
def train_model (epochs nbatches : ℕ) (lossOf : ℕ → ℕ → ℚ) (isCrf : Bool) :
    Except String Unit :=
  train_model_from nbatches lossOf isCrf 0 epochs

/-
pick_model_transform, "encoder" branch (run_model.py 366-371), against the
constructor EncoderDecoderRNN.__init__ (models/encoder.py 10-33).
-/

/-- Dynamically typed Python values crossing the constructor call. -/
inductive PyValue where
  | mat (m : List (List ℚ))
  | int (n : ℤ)
  | float (q : ℚ)
  | bool (b : Bool)
deriving DecidableEq, Repr

/-- Positional parameters of EncoderDecoderRNN.__init__ after self
(models/encoder.py 10-11); the first five have no default. -/
def encoder_init_params : List String :=
  ["device", "w2v_weights", "decoder_embedding_size", "hidden_dim",
   "tagset_size", "drop_rate", "bidirectional", "freeze", "max_norm_emb1",
   "max_norm_emb2"]

/-- Body of EncoderDecoderRNN.__init__ on its positional arguments: after
binding, line 30 evaluates w2v_weights.shape, which raises AttributeError
unless the value bound to the w2v_weights parameter is a matrix. -/
def encoder_init_call (args : List PyValue) : Except String (List (String × PyValue)) :=
  if args.length < 5 then
    Except.error "TypeError: missing required positional arguments"
  else if encoder_init_params.length < args.length then
    Except.error "TypeError: too many positional arguments"
  else
    match args.getD 1 (PyValue.int 0) with
    | PyValue.mat _ => Except.ok (encoder_init_params.zip args)
    | _ => Except.error "AttributeError: object has no attribute shape"

/-- The argument list built by the "encoder" branch of pick_model_transform
(run_model.py 366-371): w2v_weights, the literal tag embedding size 20,
hidden_size, the class count, drop, bidirectional, not unfreeze, and the
embedding norm twice -- with no device argument in front. -/
def pick_model_encoder_args (w2v_weights : List (List ℚ))
    (hidden_size num_classes : ℤ) (drop : ℚ) (bidirectional unfreeze : Bool)
    (embedding_norm : ℚ) : List PyValue :=
  [PyValue.mat w2v_weights, PyValue.int 20, PyValue.int hidden_size,
   PyValue.int num_classes, PyValue.float drop, PyValue.bool bidirectional,
   PyValue.bool (!unfreeze), PyValue.float embedding_norm,
   PyValue.float embedding_norm]

/-- The "encoder" branch of pick_model_transform: construct the model by
calling EncoderDecoderRNN on the branch's argument list. -/
def pick_model_encoder (w2v_weights : List (List ℚ))
    (hidden_size num_classes : ℤ) (drop : ℚ) (bidirectional unfreeze : Bool)
    (embedding_norm : ℚ) : Except String (List (String × PyValue)) :=
  encoder_init_call
    (pick_model_encoder_args w2v_weights hidden_size num_classes drop
      bidirectional unfreeze embedding_norm)

/-
The EncoderDecoderRNN model (models/encoder.py).  Numeric kernels supplied
by torch are structure fields; the repository's wiring of them is embedded
below.  A recurrent layer over a sequence is its cell folded along time.
-/

/-- The model state after construction.  embedding_encoder is the pretrained
lookup of line 40, embedding_decoder the tag embedding table of line 47 (its
rows), encCellF and encCellB the two direction cells of the encoder GRU,
decCell the decoder GRU cell, bnorm the BatchNorm2d(1) of line 49 applied to
the whole (batch, hidden) block, out the linear layer of line 50, logSoftmax
the LogSoftmax of line 51 on one label row, drop the dropout realization on
one feature row. -/
structure EncoderDecoderRNN where
  hidden_dim : ℕ
  tagset_size : ℕ
  decoder_embedding_size : ℕ
  bidirectional : Bool
  embedding_encoder : ℤ → List ℚ
  drop : List ℚ → List ℚ
  encCellF : List ℚ → List ℚ → List ℚ
  encCellB : List ℚ → List ℚ → List ℚ
  embedding_decoder : List (List ℚ)
  decCell : List ℚ → List ℚ → List ℚ
  bnorm : List (List ℚ) → List (List ℚ)
  out : List ℚ → List ℚ
  logSoftmax : List ℚ → List ℚ
  padIdx : ℤ

/-- EncoderDecoderRNN.__init__ (lines 25-51) with the torch-supplied
kernels as arguments: the tag embedding table of line 47 is created with
tagset_size + 1 rows (row i being the random initial row tagRow i). -/
def EncoderDecoderRNN.init (w2v_weights : List (List ℚ))
    (decoder_embedding_size hidden_dim tagset_size : ℕ)
    (drop : List ℚ → List ℚ) (bidirectional : Bool)
    (encCellF encCellB decCell : List ℚ → List ℚ → List ℚ)
    (tagRow : ℕ → List ℚ) (bnorm : List (List ℚ) → List (List ℚ))
    (out logSoftmax : List ℚ → List ℚ) (padIdx : ℤ) : EncoderDecoderRNN :=
  { hidden_dim := hidden_dim
    tagset_size := tagset_size
    decoder_embedding_size := decoder_embedding_size
    bidirectional := bidirectional
    embedding_encoder := fun i => w2v_weights.getD i.toNat []
    drop := drop
    encCellF := encCellF
    encCellB := encCellB
    embedding_decoder := (List.range (tagset_size + 1)).map tagRow
    decCell := decCell
    bnorm := bnorm
    out := out
    logSoftmax := logSoftmax
    padIdx := padIdx }

/-- Embedding lookup: row i of the table. -/
def embLookup (table : List (List ℚ)) (i : ℤ) : List ℚ :=
  table.getD i.toNat []

/-- Elementwise rectifier, F.relu of line 74. -/
def relu (v : List ℚ) : List ℚ :=
  v.map (fun x => max x 0)

/-- A GRU direction run along a sequence: per-timestep outputs (the hidden
state after each step, which is what nn.GRU emits as output) and the final
hidden state.  The initial hidden state comes from init_hidden_encoder
(lines 53-63), which zero-initializes it. -/
def gruRun (cell : List ℚ → List ℚ → List ℚ) (h : List ℚ) :
    List (List ℚ) → List (List ℚ) × List ℚ
  | [] => ([], h)
  | x :: xs =>
    let h1 := cell h x
    let r := gruRun cell h1 xs
    (h1 :: r.1, r.2)

/-- The encoder GRU (line 42) on one embedded example: unidirectional, one
run with hidden width hidden_dim; bidirectional, a forward run and a
reversed run each of width hidden_dim / 2, outputs concatenated per
timestep, final hidden states stacked direction-major. -/
def encodeExample (m : EncoderDecoderRNN) (xs : List (List ℚ)) :
    List (List ℚ) × List (List ℚ) :=
  if m.bidirectional then
    let f := gruRun m.encCellF (List.replicate (m.hidden_dim / 2) 0) xs
    let b := gruRun m.encCellB (List.replicate (m.hidden_dim / 2) 0) xs.reverse
    (List.zipWith (fun u v => u ++ v) f.1 b.1.reverse, [f.2, b.2])
  else
    let f := gruRun m.encCellF (List.replicate m.hidden_dim 0) xs
    (f.1, [f.2])

/-- Lines 88-90 of forward: batch_sequence, then the encoder embedding
lookup, then dropout. -/
def embedded_data (m : EncoderDecoderRNN) (batch : List Example) :
    List (List (List ℚ)) :=
  (batch_sequence m.padIdx batch).1.map
    (fun row => row.map (fun tok => m.drop (m.embedding_encoder tok)))

/-- Line 93: the encoder run on every example of the batch. -/
def encoder_pairs (m : EncoderDecoderRNN) (batch : List Example) :
    List (List (List ℚ) × List (List ℚ)) :=
  (embedded_data m batch).map (encodeExample m)

/-- The encoder output tensor (batch, time, features). -/
def encoder_output (m : EncoderDecoderRNN) (batch : List Example) :
    List (List (List ℚ)) :=
  (encoder_pairs m batch).map Prod.fst

/-- encoder_output.size()[1], the time dimension the decoder loop ranges
over (line 108). -/
def T_of (m : EncoderDecoderRNN) (batch : List Example) : ℕ :=
  ((encoder_output m batch).headD []).length

/-- The encoder's final hidden state tensor, direction-major as nn.GRU
returns it: (directions, batch, features). -/
def hidden_encoder_of (m : EncoderDecoderRNN) (batch : List Example) :
    List (List (List ℚ)) :=
  if m.bidirectional then
    [(encoder_pairs m batch).map (fun p => p.2.getD 0 []),
     (encoder_pairs m batch).map (fun p => p.2.getD 1 [])]
  else
    [(encoder_pairs m batch).map (fun p => p.2.getD 0 [])]

/-- The encoder-to-decoder bridge (lines 100-104): bidirectional, the two
direction slices of the final hidden state concatenated along the feature
axis (then unsqueezed back to a one-layer hidden state); unidirectional,
the hidden state passed through unchanged. -/
def bridge (bidirectional : Bool) (hidden_encoder : List (List (List ℚ))) :
    List (List (List ℚ)) :=
  if bidirectional then
    [List.zipWith (fun a b => a ++ b) (hidden_encoder.getD 0 [])
      (hidden_encoder.getD 1 [])]
  else hidden_encoder

/-- torch.add under its deprecated three-positional-argument overload
add(input, value, other), which the call on line 97 selects: it returns the
fresh tensor input + value * other and writes nothing in place (out is
keyword-only in every torch version carrying this overload). -/
def torch_add (input : List ℤ) (value : ℤ) (other : List ℤ) : List ℤ :=
  List.zipWith (fun a b => a + value * b) input other

/-- Lines 96-98 of forward: decoder_input = zeros(batch, 1).long(); then the
statement torch.add(decoder_input, tagset_size, decoder_input), whose result
is discarded, leaving decoder_input unchanged. -/
def decoder_input0 (batchLen : ℕ) (tagset_size : ℕ) : List ℤ :=
  let decoder_input : List ℤ := List.replicate batchLen 0
  let _discarded := torch_add decoder_input (tagset_size : ℤ) decoder_input
  decoder_input

/-- First index of the maximal element, scanning left to right (the index
torch.topk(1) / torch.argmax report). -/
def argmaxAux : List ℚ → ℚ → ℕ → ℕ → ℕ
  | [], _, _, best => best
  | x :: xs, bv, i, best =>
    if bv < x then argmaxAux xs x (i + 1) i else argmaxAux xs bv (i + 1) best

/-- Arg-max of one label-score row. -/
def argmaxIdx : List ℚ → ℤ
  | [] => 0
  | x :: xs => (argmaxAux xs x 1 0 : ℕ)

/-- decoder_forward (lines 65-81): tag embedding lookup, dropout, relu, one
decoder GRU step (its output on the length-1 time slice equals the new
hidden state of each batch element), BatchNorm2d over the batch block,
dropout, the linear projection to tagset scores, LogSoftmax along the label
dimension. -/
def decoder_forward (m : EncoderDecoderRNN) (input : List ℤ)
    (hidden : List (List ℚ)) : List (List ℚ) × List (List ℚ) :=
  let tag_embedded := input.map (fun i => embLookup m.embedding_decoder i)
  let tag_embedded := tag_embedded.map m.drop
  let dec_input := tag_embedded.map relu
  let hidden2 := List.zipWith m.decCell hidden dec_input
  let o1 := m.bnorm hidden2
  let o2 := o1.map m.drop
  let o3 := o2.map m.out
  (o3.map m.logSoftmax, hidden2)

/-- The decoder loop of forward (lines 107-113): T steps; each step runs
decoder_forward, extracts the greedy labels with topk(1), detaches them and
feeds them as the next input, and appends the step's output. -/
def decodeLoop (m : EncoderDecoderRNN) :
    ℕ → List ℤ → List (List ℚ) → List (List (List ℚ))
  | 0, _, _ => []
  | t + 1, input, hidden =>
    let step := decoder_forward m input hidden
    let next_input := step.1.map argmaxIdx
    step.1 :: decodeLoop m t next_input step.2

/-- The per-step decoder inputs of the same loop: the input consumed at
step 0, then at each later step the greedy labels fed back. -/
def decode_inputs (m : EncoderDecoderRNN) :
    ℕ → List ℤ → List (List ℚ) → List (List ℤ)
  | 0, _, _ => []
  | t + 1, input, hidden =>
    let step := decoder_forward m input hidden
    input :: decode_inputs m t (step.1.map argmaxIdx) step.2

/-- The list of per-step decoder outputs collected by forward. -/
def decoder_results (m : EncoderDecoderRNN) (batch : List Example) :
    List (List (List ℚ)) :=
  decodeLoop m (T_of m batch) (decoder_input0 batch.length m.tagset_size)
    ((bridge m.bidirectional (hidden_encoder_of m batch)).getD 0 [])

/-- Line 115-116: torch.cat(results, dim=1) glues the per-step (batch, 1,
tagset) outputs into (batch, T, tagset), and view(-1, tagset) flattens it
row-major, example-major first: row i * T + t is example i at step t. -/
def flatten_logits (batchLen : ℕ) (results : List (List (List ℚ))) :
    List (List ℚ) :=
  (List.range batchLen).flatMap
    (fun i => results.map (fun step => step.getD i []))

/-- forward (lines 83-116): the flattened log-probability rows paired with
the flattened padded gold labels. -/
def EncoderDecoderRNN.forward (m : EncoderDecoderRNN) (batch : List Example) :
    List (List ℚ) × List ℤ :=
  (flatten_logits batch.length (decoder_results m batch),
   (batch_sequence m.padIdx batch).2.1.flatten)

/-
Supporting lemmas.
-/

theorem string_join_append (l₁ l₂ : List String) :
    String.join (l₁ ++ l₂) = String.join l₁ ++ String.join l₂ := by
  apply String.ext
  simp

theorem string_join_cons (s : String) (l : List String) :
    String.join (s :: l) = s ++ String.join l := by
  apply String.ext
  simp

theorem splitOn_of_not_mem (a : ℤ) (l : List ℤ) (h : a ∉ l) :
    l.splitOn a = [l] := by
  induction l with
  | nil => rfl
  | cons x xs ih =>
    simp only [List.mem_cons, not_or] at h
    have hxa : ¬x = a := fun hh => h.1 hh.symm
    have hxs := ih h.2
    simp only [List.splitOn] at hxs ⊢
    rw [List.splitOnP_cons, hxs]
    simp [hxa]

theorem splitOn_append_cons (a : ℤ) (l₁ l₂ : List ℤ) (h : a ∉ l₁) :
    (l₁ ++ a :: l₂).splitOn a = l₁ :: l₂.splitOn a := by
  induction l₁ with
  | nil =>
    simp only [List.nil_append, List.splitOn]
    rw [List.splitOnP_cons]
    simp
  | cons x xs ih =>
    simp only [List.mem_cons, not_or] at h
    have hxa : ¬x = a := fun hh => h.1 hh.symm
    have hxs := ih h.2
    simp only [List.cons_append, List.splitOn] at hxs ⊢
    rw [List.splitOnP_cons, hxs]
    simp [hxa]

theorem regroupAux_snd_length (L : List (ℤ × ℤ)) : ∀ tmp_pred tmp_true,
    (regroupAux L tmp_pred tmp_true).2.length = (L.map Prod.snd).count (-1) := by
  induction L with
  | nil => intro _ _; rfl
  | cons hd tl ih =>
    intro tp tt
    obtain ⟨i, v⟩ := hd
    by_cases hv : v = -1
    · subst hv
      simp [regroupAux, ih, List.count_cons]
    · simp [regroupAux, hv, ih, List.count_cons]

theorem regroupAux_snd_eq (L : List (ℤ × ℤ)) : ∀ tmp_pred tmp_true,
    (-1 : ℤ) ∉ tmp_true →
    (regroupAux L tmp_pred tmp_true).2
      = ((tmp_true ++ L.map Prod.snd).splitOn (-1)).dropLast := by
  induction L with
  | nil =>
    intro tp tt h
    simp [regroupAux, splitOn_of_not_mem _ _ h]
  | cons hd tl ih =>
    intro tp tt h
    obtain ⟨i, v⟩ := hd
    by_cases hv : v = -1
    · subst hv
      have hs := splitOn_append_cons (-1) tt (tl.map Prod.snd) h
      have hne : (tl.map Prod.snd).splitOn (-1) ≠ [] := by
        simp only [List.splitOn]
        exact List.splitOnP_ne_nil _ _
      have lhs : (regroupAux ((i, -1) :: tl) tp tt).2
          = tt :: (regroupAux tl [] []).2 := by
        simp [regroupAux]
      have ih' : (regroupAux tl [] []).2
          = ((tl.map Prod.snd).splitOn (-1)).dropLast := by
        simpa using ih [] [] (by simp)
      rw [lhs, List.map_cons, hs, List.dropLast_cons_of_ne_nil hne, ih']
    · have hmem : (-1 : ℤ) ∉ tt ++ [v] := by
        intro hc
        rcases List.mem_append.mp hc with hc1 | hc2
        · exact h hc1
        · exact hv (List.mem_singleton.mp hc2).symm
      have lhs : (regroupAux ((i, v) :: tl) tp tt).2
          = (regroupAux tl (tp ++ [i]) (tt ++ [v])).2 := by
        simp [regroupAux, hv]
      rw [lhs, ih (tp ++ [i]) (tt ++ [v]) hmem, List.map_cons]
      congr 1
      simp

theorem regroup_snd_eq (pred gold : List ℤ) (h : pred.length = gold.length) :
    (regroup pred gold).2 = (gold.splitOn (-1)).dropLast := by
  unfold regroup
  rw [regroupAux_snd_eq _ _ _ (by simp)]
  rw [List.map_snd_zip pred gold (le_of_eq h.symm)]
  simp

theorem regroup_snd_length (pred gold : List ℤ) (h : pred.length = gold.length) :
    (regroup pred gold).2.length = gold.count (-1) := by
  unfold regroup
  rw [regroupAux_snd_length]
  rw [List.map_snd_zip pred gold (le_of_eq h.symm)]

theorem count_flat_labels (batch : List Example)
    (hclean : ∀ e ∈ batch, (-1 : ℤ) ∉ e.labels) :
    (flat_labels batch).count (-1)
      = (batch.map (fun e => maxLen batch - e.labels.length)).sum := by
  unfold flat_labels padded_labels
  rw [List.count_flatten, List.map_map]
  congr 1
  apply List.map_congr_left
  intro e he
  simp only [Function.comp_apply, padTo]
  rw [List.count_append, List.count_replicate]
  have h0 : e.labels.count (-1) = 0 := List.count_eq_zero.mpr (hclean e he)
  simp [h0]

/-
Claim theorems for the training harness.
-/

/-- A concrete batch of two examples with lengths 1 and 2; padded to the
maximum length 2, its flattened gold stream is [5, -1, 7, 8]. -/
def regroupBatch : List Example := [⟨[10], [5]⟩, ⟨[11, 12], [7, 8]⟩]

/-- C1, counterexample: on a batch of two examples (lengths 1 and 2) the
regrouping scan produces a single (prediction, gold) pair, not one pair per
example: the longest example never meets a -1 marker, so its positions are
dropped at the end of the batch. -/
theorem regroup_not_one_pair_per_example :
    (regroup [1, 2, 3, 4] (flat_labels regroupBatch)).2 = [[5]]
      ∧ (regroup [1, 2, 3, 4] (flat_labels regroupBatch)).1 = [[1]]
      ∧ regroupBatch.length = 2
      ∧ (regroup [1, 2, 3, 4] (flat_labels regroupBatch)).2.length
          ≠ regroupBatch.length := by
  decide

/-- C1 (amended): scanning the flattened stream and splitting on -1 gold
labels yields one pair per encountered -1 marker, namely the splitOn-(-1)
decomposition of the gold stream with its trailing segment dropped; on a
batch whose examples carry no -1 gold label of their own, the number of
pairs is the total number of padding positions, sum of (T - length_i), not
the number of examples. -/
theorem regroup_splits_on_markers (batch : List Example) (pred : List ℤ)
    (hlen : pred.length = (flat_labels batch).length)
    (hclean : ∀ e ∈ batch, (-1 : ℤ) ∉ e.labels) :
    (regroup pred (flat_labels batch)).2
        = ((flat_labels batch).splitOn (-1)).dropLast
      ∧ (regroup pred (flat_labels batch)).2.length
        = (batch.map (fun e => maxLen batch - e.labels.length)).sum :=
  ⟨regroup_snd_eq _ _ hlen,
    (regroup_snd_length _ _ hlen).trans (count_flat_labels batch hclean)⟩

/-- C1, witness for the amended theorem at the concrete batch. -/
theorem regroup_splits_on_markers_witness :
    (regroup [1, 2, 3, 4] (flat_labels regroupBatch)).2
        = ((flat_labels regroupBatch).splitOn (-1)).dropLast
      ∧ (regroup [1, 2, 3, 4] (flat_labels regroupBatch)).2.length
        = (regroupBatch.map (fun e => maxLen regroupBatch - e.labels.length)).sum :=
  regroup_splits_on_markers regroupBatch [1, 2, 3, 4] (by decide) (by decide)

/-- C2: for every non-CRF model and any number of epochs at least 1, the
training loop does not return normally: at the end of its first epoch the
train-stats block calls write_predictions with 4 of its 6 required
positional arguments and the run aborts with a TypeError. -/
theorem train_model_nonCrf_raises (epochs nbatches : ℕ) (lossOf : ℕ → ℕ → ℚ) :
    train_model (epochs + 1) nbatches lossOf false
      = Except.error
          "TypeError: write_predictions missing required positional arguments" :=
  rfl

/-- C3: for every parameter configuration reaching the "encoder" branch of
pick_model_transform, the EncoderDecoderRNN constructor call raises before a
model is returned, the positional binding being shifted by the omitted
device argument: the weight matrix lands in device, the tag-embedding size
20 lands in w2v_weights, hidden_size in decoder_embedding_size, the class
count in hidden_dim, and reading .shape of the integer bound to w2v_weights
raises AttributeError. -/
theorem pick_model_encoder_raises (w2v_weights : List (List ℚ))
    (hidden_size num_classes : ℤ) (drop : ℚ) (bidirectional unfreeze : Bool)
    (embedding_norm : ℚ) :
    pick_model_encoder w2v_weights hidden_size num_classes drop bidirectional
        unfreeze embedding_norm
      = Except.error "AttributeError: object has no attribute shape"
    ∧ (encoder_init_params.zip
        (pick_model_encoder_args w2v_weights hidden_size num_classes drop
          bidirectional unfreeze embedding_norm)).lookup "device"
        = some (PyValue.mat w2v_weights)
    ∧ (encoder_init_params.zip
        (pick_model_encoder_args w2v_weights hidden_size num_classes drop
          bidirectional unfreeze embedding_norm)).lookup "w2v_weights"
        = some (PyValue.int 20)
    ∧ (encoder_init_params.zip
        (pick_model_encoder_args w2v_weights hidden_size num_classes drop
          bidirectional unfreeze embedding_norm)).lookup "decoder_embedding_size"
        = some (PyValue.int hidden_size)
    ∧ (encoder_init_params.zip
        (pick_model_encoder_args w2v_weights hidden_size num_classes drop
          bidirectional unfreeze embedding_norm)).lookup "hidden_dim"
        = some (PyValue.int num_classes) :=
  ⟨rfl, rfl, rfl, rfl, rfl⟩

/-- C5: the decoder's initial input stays 0 for every batch element.  The
statement torch.add(decoder_input, tagset_size, decoder_input) selects the
deprecated overload add(input, value, other) = input + value * other, whose
result -- here 0 + tagset_size * 0 = 0 -- is a fresh tensor that the code
discards, so the start index fed to the decoder is 0, one of the real tag
classes, not the constant tagset_size mapping to the extra last row that the
tag-embedding table (which does have tagset_size + 1 rows) reserves. -/
theorem start_token_stays_zero :
    decoder_input0 2 3 = [0, 0]
      ∧ decoder_input0 2 3 ≠ List.replicate 2 (3 : ℤ)
      ∧ torch_add (List.replicate 2 (0 : ℤ)) 3 (List.replicate 2 (0 : ℤ)) = [0, 0]
      ∧ (EncoderDecoderRNN.init [] 20 4 3 id false (fun h _ => h) (fun h _ => h)
          (fun h _ => h) (fun _ => [0]) id id id 0).embedding_decoder.length
          = 3 + 1 := by
  refine ⟨rfl, by decide, rfl, rfl⟩

/-- C9, counterexample: a configuration satisfying every condition the claim
lists (valid names, positive lr, batch and epochs, nonnegative drop, decay
and norm) on which parse_args nevertheless fails, because hidden_size = 0
trips the assert the claim omits. -/
theorem parse_args_hidden_size_counterexample :
    parse_args 1 0 0 10 80 30 0 "tokens" "recurrent" "movies"
        = Except.error "hidden size should be greater than 0"
      ∧ ((0 : ℚ) < 1 ∧ (0 : ℚ) ≤ 0 ∧ (0 : ℚ) ≤ 0 ∧ (0 : ℚ) ≤ 10
         ∧ (0 : ℤ) < 80 ∧ (0 : ℤ) < 30
         ∧ "tokens" ∈ possible_sequences ∧ "recurrent" ∈ possible_models
         ∧ "movies" ∈ possible_datasets) :=
  ⟨rfl, by decide⟩

set_option maxHeartbeats 2000000 in
/-- C9 (amended): parse_args succeeds exactly when the model, sequence and
dataset names are supported, learning rate, batch size, epoch count and also
hidden size are positive, and dropout, decay and embedding norm are
nonnegative; otherwise it fails with an assertion-style error, before any
model construction. -/
theorem parse_args_ok_iff (lr drop decay embedding_norm : ℚ)
    (batch epochs hidden_size : ℤ) (sequence model dataset : String) :
    (∃ r, parse_args lr drop decay embedding_norm batch epochs hidden_size
        sequence model dataset = Except.ok r)
      ↔ (0 < lr ∧ 0 ≤ drop ∧ 0 ≤ decay ∧ 0 ≤ embedding_norm ∧ 0 < batch
         ∧ 0 < epochs ∧ 0 < hidden_size ∧ sequence ∈ possible_sequences
         ∧ model ∈ possible_models ∧ dataset ∈ possible_datasets) := by
  unfold parse_args
  split_ifs <;>
    first
      | exact iff_of_true ⟨_, rfl⟩ (by tauto)
      | exact iff_of_false (by rintro ⟨r, hr⟩; cases hr) (by tauto)

/-- The inner loop emits exactly the line per zipped token triple. -/
theorem write_example_lines_eq (i2c : ℤ → String) (ind : Bool) :
    ∀ (t : List String) (l p : List ℤ),
    write_example_lines i2c ind t l p
      = (t.zip (l.zip p)).map (fun w =>
          format_line w.1 (if ind then i2c w.2.1 else toString w.2.1)
            (i2c w.2.2))
  | [], l, p => by cases l <;> cases p <;> rfl
  | _ :: _, [], p => by cases p <;> rfl
  | _ :: _, _ :: _, [] => rfl
  | a :: t, b :: l, c :: p => by
    simp only [write_example_lines, List.zip_cons_cons, List.map_cons]
    rw [write_example_lines_eq i2c ind t l p]

/-- The full content equals the join of one spec-shaped block per zipped
example triple. -/
theorem writes_join_blocks (i2c : ℤ → String) (ind : Bool) :
    ∀ (ts : List (List String)) (ls ps : List (List ℤ)),
    String.join (write_predictions_writes i2c ind ts ls ps)
      = String.join ((ts.zip (ls.zip ps)).map (fun e =>
          prediction_block_spec i2c ind e.1 e.2.1 e.2.2))
  | [], ls, ps => by cases ls <;> cases ps <;> rfl
  | _ :: _, [], ps => by cases ps <;> rfl
  | _ :: _, _ :: _, [] => rfl
  | t :: ts, l :: ls, p :: ps => by
    simp only [write_predictions_writes, List.zip_cons_cons, List.map_cons]
    rw [string_join_append, string_join_append, string_join_cons,
      writes_join_blocks i2c ind ts ls ps, string_join_cons]
    simp only [prediction_block_spec, write_example_lines_eq i2c ind t l p]
    apply String.ext
    simp

/-- C10: write_predictions serializes one "token gold predicted" line per
zipped token with integer labels mapped through the inverted class
vocabulary, a blank line closing each example; in particular the claim's
single-example instance produces exactly "a O O\nb PER LOC\n\n". -/
theorem write_predictions_format (tokens : List (List String))
    (labels preds : List (List ℤ)) (ind : Bool) (vocab : List (String × ℤ)) :
    write_predictions tokens labels preds ind vocab
      = String.join ((tokens.zip (labels.zip preds)).map (fun e =>
          prediction_block_spec (index_to_class vocab) ind e.1 e.2.1 e.2.2))
    ∧ write_predictions [["a", "b"]] [[0, 1]] [[0, 2]] true
        [("O", 0), ("PER", 1), ("LOC", 2)] = "a O O\nb PER LOC\n\n" :=
  ⟨writes_join_blocks (index_to_class vocab) ind tokens labels preds, by decide⟩

/-
Shape lemmas for the encoder-decoder forward pass.
-/

theorem padTo_length (x : ℤ) (T : ℕ) (l : List ℤ) :
    (padTo x T l).length = max T l.length := by
  simp only [padTo, List.length_append, List.length_replicate]
  omega

theorem padTo_getD (x : ℤ) (T : ℕ) (l : List ℤ) (t : ℕ)
    (h1 : l.length ≤ t) (h2 : t < T) :
    (padTo x T l).getD t 0 = x := by
  unfold padTo
  rw [List.getD_append_right _ _ _ _ h1]
  have hlt : t - l.length < (List.replicate (T - l.length) x).length := by
    rw [List.length_replicate]
    omega
  rw [List.getD_eq_getElem _ _ hlt]
  simp

theorem length_le_maxLen (e : Example) (batch : List Example) (h : e ∈ batch) :
    e.tokens.length ≤ maxLen batch := by
  induction batch with
  | nil => cases h
  | cons b bs ih =>
    rcases List.mem_cons.mp h with rfl | hm
    · simp only [maxLen, List.foldr_cons]
      omega
    · have := ih hm
      simp only [maxLen, List.foldr_cons] at this ⊢
      omega

theorem gruRun_fst_length (cell : List ℚ → List ℚ → List ℚ) :
    ∀ (h : List ℚ) (xs : List (List ℚ)), (gruRun cell h xs).1.length = xs.length
  | _, [] => rfl
  | h, x :: xs => by
    simp only [gruRun, List.length_cons]
    rw [gruRun_fst_length cell (cell h x) xs]

theorem encodeExample_fst_length (m : EncoderDecoderRNN) (xs : List (List ℚ)) :
    (encodeExample m xs).1.length = xs.length := by
  unfold encodeExample
  by_cases hb : m.bidirectional <;>
    simp [hb, gruRun_fst_length, List.length_zipWith]

theorem T_of_cons (m : EncoderDecoderRNN) (e : Example) (rest : List Example) :
    T_of m (e :: rest) = maxLen (e :: rest) := by
  simp only [T_of, encoder_output, encoder_pairs, embedded_data, batch_sequence,
    List.map_cons, List.headD_cons]
  rw [encodeExample_fst_length]
  simp only [List.length_map]
  rw [padTo_length]
  have h := length_le_maxLen e (e :: rest) (List.mem_cons_self e rest)
  omega

theorem decodeLoop_length (m : EncoderDecoderRNN) :
    ∀ (T : ℕ) (input : List ℤ) (hidden : List (List ℚ)),
    (decodeLoop m T input hidden).length = T
  | 0, _, _ => rfl
  | T + 1, input, hidden => by
    simp only [decodeLoop, List.length_cons]
    rw [decodeLoop_length m T]

/-- C4: the decoder loop of forward collects exactly T_of per-step outputs
-- a total, structurally terminating recursion -- where T_of, the time
dimension of the encoder output, equals the maximum sequence length of the
(nonempty) batch; and every label position at or beyond an example's true
length up to that maximum carries the gold label -1. -/
theorem decoder_loop_runs_max_length_steps (m : EncoderDecoderRNN)
    (e : Example) (rest : List Example) :
    (decoder_results m (e :: rest)).length = T_of m (e :: rest)
      ∧ T_of m (e :: rest) = maxLen (e :: rest)
      ∧ ∀ ex ∈ (e :: rest), ∀ t, ex.labels.length ≤ t →
          t < maxLen (e :: rest) →
          (padTo (-1) (maxLen (e :: rest)) ex.labels).getD t 0 = -1 :=
  ⟨decodeLoop_length m _ _ _, T_of_cons m e rest,
    fun _ _ t h1 h2 => padTo_getD (-1) _ _ t h1 h2⟩

/-- A concrete model instance with trivial kernels, used to instantiate the
hypotheses of the shape theorems on concrete batches. -/
def mTest : EncoderDecoderRNN :=
  { hidden_dim := 2
    tagset_size := 2
    decoder_embedding_size := 1
    bidirectional := false
    embedding_encoder := fun _ => [0, 0]
    drop := id
    encCellF := fun h _ => h
    encCellB := fun h _ => h
    embedding_decoder := [[0], [0], [0]]
    decCell := fun h _ => h
    bnorm := id
    out := fun _ => [0, 0]
    logSoftmax := id
    padIdx := 0 }

/-- C6: at every decoder step the input fed to the next step is the arg-max
label row of the current step's output log-probabilities -- the loop's state
is (greedy labels, hidden state) only, so the gold labels never enter the
feedback. -/
theorem greedy_feedback (m : EncoderDecoderRNN) :
    ∀ (T k : ℕ) (input : List ℤ) (hidden : List (List ℚ)), k + 1 < T →
    (decode_inputs m T input hidden).getD (k + 1) []
      = ((decodeLoop m T input hidden).getD k []).map argmaxIdx
  | 0, k, _, _, h => absurd h (by omega)
  | T + 1, 0, input, hidden, h => by
    cases T with
    | zero => omega
    | succ t =>
      simp [decode_inputs, decodeLoop, List.getD_cons_zero, List.getD_cons_succ]
  | T + 1, k + 1, input, hidden, h => by
    simp only [decode_inputs, decodeLoop, List.getD_cons_succ]
    exact greedy_feedback m T k _ _ (by omega)

/-- C6, witness at the concrete model: the input of step 1 is the arg-max of
the step-0 output. -/
theorem greedy_feedback_witness :
    (decode_inputs mTest 2 [0] [[0, 0]]).getD 1 []
      = ((decodeLoop mTest 2 [0] [[0, 0]]).getD 0 []).map argmaxIdx :=
  greedy_feedback mTest 2 0 [0] [[0, 0]] (by omega)

/-- C7: the encoder-to-decoder bridge concatenates the two direction slices
of the encoder's final hidden state along the feature axis when the encoder
is bidirectional -- each bridged row having size hidden_dim when the slices
carry hidden_dim / 2 features -- and is the identity when unidirectional. -/
theorem bridge_concat_or_identity (hidden_dim d : ℕ) (h0 h1 : List (List ℚ))
    (hd : d + d = hidden_dim)
    (h0l : ∀ r ∈ h0, r.length = d) (h1l : ∀ r ∈ h1, r.length = d) :
    bridge true [h0, h1] = [List.zipWith (fun a b => a ++ b) h0 h1]
      ∧ (∀ r ∈ (bridge true [h0, h1]).getD 0 [], r.length = hidden_dim)
      ∧ (∀ hs : List (List (List ℚ)), bridge false hs = hs) := by
  refine ⟨rfl, ?_, fun hs => rfl⟩
  intro r hr
  have hr' : r ∈ List.zipWith (fun a b => a ++ b) h0 h1 := hr
  obtain ⟨i, hi, heq⟩ := List.mem_iff_getElem.mp hr'
  rw [List.getElem_zipWith] at heq
  rw [← heq, List.length_append]
  rw [List.length_zipWith] at hi
  have hm0 : h0[i] ∈ h0 := List.getElem_mem (by omega)
  have hm1 : h1[i] ∈ h1 := List.getElem_mem (by omega)
  rw [h0l _ hm0, h1l _ hm1]
  exact hd

/-- C7, witness at concrete one-element direction slices of width 1. -/
theorem bridge_concat_or_identity_witness :
    bridge true [[[(0 : ℚ)]], [[(1 : ℚ)]]]
        = [List.zipWith (fun a b => a ++ b) [[(0 : ℚ)]] [[(1 : ℚ)]]]
      ∧ (∀ r ∈ (bridge true [[[(0 : ℚ)]], [[(1 : ℚ)]]]).getD 0 [], r.length = 2)
      ∧ (∀ hs : List (List (List ℚ)), bridge false hs = hs) :=
  bridge_concat_or_identity 2 1 [[(0 : ℚ)]] [[(1 : ℚ)]] rfl
    (by intro r hr; simp at hr; simp [hr]) (by intro r hr; simp at hr; simp [hr])

theorem decoder_input0_length (batchLen tagset_size : ℕ) :
    (decoder_input0 batchLen tagset_size).length = batchLen := by
  simp [decoder_input0]

theorem hid0_length (m : EncoderDecoderRNN) (batch : List Example) :
    ((bridge m.bidirectional (hidden_encoder_of m batch)).getD 0 []).length
      = batch.length := by
  unfold bridge hidden_encoder_of
  by_cases hb : m.bidirectional <;>
    simp [hb, encoder_pairs, embedded_data, batch_sequence, List.length_zipWith]

/-- Every step output of the decoder loop has one row per batch element and
tagset_size scores per row, as long as the batch-norm layer preserves the
batch dimension, the linear layer emits tagset_size scores and LogSoftmax
preserves the row length. -/
theorem decodeLoop_shapes (m : EncoderDecoderRNN) (N : ℕ)
    (hbn : ∀ xs, (m.bnorm xs).length = xs.length)
    (hout : ∀ v, (m.out v).length = m.tagset_size)
    (hsm : ∀ v, (m.logSoftmax v).length = v.length) :
    ∀ (T : ℕ) (input : List ℤ) (hidden : List (List ℚ)),
    input.length = N → hidden.length = N →
    ∀ step ∈ decodeLoop m T input hidden,
      step.length = N ∧ ∀ r ∈ step, r.length = m.tagset_size := by
  intro T
  induction T with
  | zero => intro input hidden _ _ step hstep; cases hstep
  | succ t ih =>
    intro input hidden hin hhid step hstep
    have hh2 : (List.zipWith m.decCell hidden
        ((input.map (fun i => embLookup m.embedding_decoder i)).map m.drop
          |>.map relu)).length = N := by
      simp [List.length_zipWith, hin, hhid]
    have hfst : (decoder_forward m input hidden).1.length = N := by
      simp only [decoder_forward, List.length_map]
      rw [hbn]
      exact hh2
    have hrows : ∀ r ∈ (decoder_forward m input hidden).1,
        r.length = m.tagset_size := by
      intro r hr
      simp only [decoder_forward] at hr
      obtain ⟨v, hv, rfl⟩ := List.mem_map.mp hr
      obtain ⟨w, hw, rfl⟩ := List.mem_map.mp hv
      rw [hsm, hout]
    have hsnd : (decoder_forward m input hidden).2.length = N := by
      simp only [decoder_forward]
      exact hh2
    simp only [decodeLoop] at hstep
    rcases List.mem_cons.mp hstep with rfl | hmem
    · exact ⟨hfst, hrows⟩
    · exact ih _ _ (by simp [List.length_map, hfst]) hsnd step hmem

theorem flatten_logits_length (N : ℕ) (results : List (List (List ℚ))) :
    (flatten_logits N results).length = N * results.length := by
  unfold flatten_logits
  induction N with
  | zero => simp
  | succ n ih =>
    rw [List.range_succ, List.flatMap_append, List.length_append, ih]
    simp only [List.flatMap_cons, List.flatMap_nil, List.append_nil,
      List.length_map]
    ring

/-- Indexing a flatMap over an initial range of block functions whose blocks
all have length T: position i * T + t reads block i at offset t. -/
theorem flatMap_range_getD (T : ℕ) :
    ∀ (N : ℕ) (f : ℕ → List (List ℚ)), (∀ j, (f j).length = T) →
    ∀ i t, i < N → t < T →
    ((List.range N).flatMap f).getD (i * T + t) [] = (f i).getD t []
  | 0, _, _, _, _, hi, _ => absurd hi (by omega)
  | n + 1, f, hf, i, t, hi, ht => by
    rw [List.range_succ_eq_map, List.flatMap_cons, List.flatMap_map]
    cases i with
    | zero =>
      simp only [Nat.zero_mul, Nat.zero_add]
      rw [List.getD_append _ _ _ _ (by rw [hf 0]; exact ht)]
    | succ j =>
      have harith : (j + 1) * T + t = T + (j * T + t) := by ring
      rw [harith, List.getD_append_right _ _ _ _ (by rw [hf 0]; omega), hf 0]
      have h2 : T + (j * T + t) - T = j * T + t := by omega
      rw [h2]
      exact flatMap_range_getD T n (fun x => f (x + 1)) (fun x => hf (x + 1))
        j t (by omega) ht

/-- Indexing the flattening of a list of rows that all have length T:
position i * T + t reads row i at offset t. -/
theorem flatten_getD (T : ℕ) :
    ∀ (L : List (List ℤ)), (∀ l ∈ L, l.length = T) →
    ∀ i t, i < L.length → t < T →
    L.flatten.getD (i * T + t) 0 = (L.getD i []).getD t 0
  | [], _, _, _, hi, _ => absurd hi (by simp at hi)
  | l :: L, hL, 0, t, _, ht => by
    simp only [List.flatten_cons, Nat.zero_mul, Nat.zero_add,
      List.getD_cons_zero]
    rw [List.getD_append _ _ _ _ (by rw [hL l (by simp)]; exact ht)]
  | l :: L, hL, i + 1, t, hi, ht => by
    have hlen : l.length = T := hL l (by simp)
    have harith : (i + 1) * T + t = l.length + (i * T + t) := by
      rw [hlen]; ring
    rw [List.flatten_cons, harith,
      List.getD_append_right _ _ _ _ (by omega)]
    have h2 : l.length + (i * T + t) - l.length = i * T + t := by omega
    rw [h2, List.getD_cons_succ]
    exact flatten_getD T L (fun x hx => hL x (by simp [hx])) i t
      (by simpa using hi) ht

theorem getD_map_row (g : List (List ℚ) → List ℚ) (L : List (List (List ℚ)))
    (t : ℕ) (ht : t < L.length) :
    (L.map g).getD t [] = g (L.getD t []) := by
  rw [List.getD_eq_getElem _ _ (by simpa using ht), List.getElem_map,
    List.getD_eq_getElem _ _ ht]

theorem padded_labels_row_length (batch : List Example)
    (heq : ∀ e ∈ batch, e.labels.length = e.tokens.length) :
    ∀ row ∈ padded_labels batch, row.length = maxLen batch := by
  intro row hrow
  obtain ⟨e, he, rfl⟩ := List.mem_map.mp hrow
  rw [padTo_length]
  have h1 := length_le_maxLen e batch he
  rw [heq e he]
  omega

theorem flat_labels_length (batch : List Example)
    (heq : ∀ e ∈ batch, e.labels.length = e.tokens.length) :
    (flat_labels batch).length = batch.length * maxLen batch := by
  unfold flat_labels
  rw [List.length_flatten]
  have hrep : (padded_labels batch).map List.length
      = List.replicate batch.length (maxLen batch) := by
    rw [List.eq_replicate_iff]
    constructor
    · simp [padded_labels]
    · intro b hb
      obtain ⟨row, hrow, rfl⟩ := List.mem_map.mp hb
      exact padded_labels_row_length batch heq row hrow
  rw [hrep, List.sum_replicate, smul_eq_mul]

/-- C8: forward on a nonempty batch of N examples with maximum length T
returns N * T flattened log-probability rows of tagset_size scores each and
N * T flattened gold labels, aligned row-major: position i * T + t of the
labels is example i's padded gold label at step t, and row i * T + t of the
log-probabilities is the decoder's step-t output row for example i.  The
shape hypotheses state that the torch kernels keep their documented shapes:
BatchNorm2d preserves the batch dimension, the linear layer emits
tagset_size scores, LogSoftmax preserves row length, and examples carry one
label per token. -/
theorem forward_flattened_aligned (m : EncoderDecoderRNN) (e : Example)
    (rest : List Example)
    (hbn : ∀ xs, (m.bnorm xs).length = xs.length)
    (hout : ∀ v, (m.out v).length = m.tagset_size)
    (hsm : ∀ v, (m.logSoftmax v).length = v.length)
    (heq : ∀ ex ∈ (e :: rest), ex.labels.length = ex.tokens.length) :
    ((m.forward (e :: rest)).1.length
        = (e :: rest).length * maxLen (e :: rest))
      ∧ (∀ row ∈ (m.forward (e :: rest)).1, row.length = m.tagset_size)
      ∧ ((m.forward (e :: rest)).2.length
        = (e :: rest).length * maxLen (e :: rest))
      ∧ (∀ i t, i < (e :: rest).length → t < maxLen (e :: rest) →
          (m.forward (e :: rest)).1.getD (i * maxLen (e :: rest) + t) []
              = ((decoder_results m (e :: rest)).getD t []).getD i []
            ∧ (m.forward (e :: rest)).2.getD (i * maxLen (e :: rest) + t) 0
              = ((padded_labels (e :: rest)).getD i []).getD t 0) := by
  have hres_len : (decoder_results m (e :: rest)).length = maxLen (e :: rest) :=
    (decodeLoop_length m _ _ _).trans (T_of_cons m e rest)
  have hshapes : ∀ step ∈ decoder_results m (e :: rest),
      step.length = (e :: rest).length
        ∧ ∀ r ∈ step, r.length = m.tagset_size := by
    intro step hstep
    unfold decoder_results at hstep
    exact decodeLoop_shapes m (e :: rest).length hbn hout hsm _ _ _
      (decoder_input0_length _ _) (hid0_length m _) step hstep
  have hfwd1 : (m.forward (e :: rest)).1
      = flatten_logits (e :: rest).length (decoder_results m (e :: rest)) := rfl
  have hfwd2 : (m.forward (e :: rest)).2 = flat_labels (e :: rest) := rfl
  refine ⟨?_, ?_, ?_, ?_⟩
  · rw [hfwd1, flatten_logits_length, hres_len]
  · intro row hrow
    rw [hfwd1] at hrow
    unfold flatten_logits at hrow
    obtain ⟨i, hi, hrow2⟩ := List.mem_flatMap.mp hrow
    obtain ⟨step, hstep, rfl⟩ := List.mem_map.mp hrow2
    have hsh := hshapes step hstep
    have hiN : i < step.length := by
      rw [hsh.1]
      exact List.mem_range.mp hi
    rw [List.getD_eq_getElem _ _ hiN]
    exact hsh.2 _ (List.getElem_mem hiN)
  · rw [hfwd2, flat_labels_length _ heq]
  · intro i t hi ht
    constructor
    · rw [hfwd1]
      unfold flatten_logits
      rw [flatMap_range_getD (maxLen (e :: rest)) (e :: rest).length _
        (fun j => by rw [List.length_map, hres_len]) i t hi ht]
      exact getD_map_row _ _ t (by rw [hres_len]; exact ht)
    · rw [hfwd2]
      unfold flat_labels
      exact flatten_getD (maxLen (e :: rest)) (padded_labels (e :: rest))
        (padded_labels_row_length _ heq) i t
        (by simpa [padded_labels] using hi) ht

/-- First example of the concrete witness batch. -/
def wE : Example := ⟨[1], [0]⟩

/-- Remaining examples of the concrete witness batch. -/
def wRest : List Example := [⟨[2, 3], [1, 1]⟩]

/-- C8, witness at the concrete model and the two-example batch with
lengths 1 and 2. -/
theorem forward_flattened_aligned_witness :
    (mTest.forward (wE :: wRest)).1.length
        = (wE :: wRest).length * maxLen (wE :: wRest)
      ∧ (mTest.forward (wE :: wRest)).2.getD (1 * maxLen (wE :: wRest) + 0) 0
          = ((padded_labels (wE :: wRest)).getD 1 []).getD 0 0 :=
  ⟨(forward_flattened_aligned mTest wE wRest (fun _ => rfl) (fun _ => rfl)
      (fun _ => rfl) (by decide)).1,
    ((forward_flattened_aligned mTest wE wRest (fun _ => rfl) (fun _ => rfl)
      (fun _ => rfl) (by decide)).2.2.2 1 0 (by decide) (by decide)).2⟩
